import Mathlib

/-!
# Verification of the beacon-relay step-data converter

Shallow embedding of `src/ts/convert_my_step_data.ts` and of the helper
module `bls_utils` it imports.  The helper module is not part of the
sources, so its functions (`bigint_to_array` alias `encode`, `hexToIntArray`
alias `hexToBytes`, `sigHexAsSnarkInput`) are modelled from the
specification; every definition modelling a missing function carries a doc
comment saying so.  The converter script itself is embedded from the
TypeScript source.  External collaborators (the curve library used for
point decompression, the file system) are passed in as explicit
parameters.
-/

/-- The error kinds named by the specification (section 7). -/
inductive Err where
  | InputNotFound
  | MalformedInput
  | MalformedHex
  | DecompressionError
  | OutOfRange
  | InvalidMode
  | InvalidInput
  deriving DecidableEq, Repr

/-! ## Limb Codec (spec section 4.1) -/

/-- The limb extraction loop: repeatedly take the low `n` bits of the value
(mask) and shift right by `n`, producing `k` limbs, little-endian. -/
def encodeLimbs (n : Nat) : Nat → Nat → List Nat
  | 0, _ => []
  | kk + 1, v => v % 2 ^ n :: encodeLimbs n kk (v / 2 ^ n)

/-- Modelled from the spec: `encode` of the Limb Codec (the `bigint_to_array`
function of `bls_utils`, a repository file that is not among the sources).
Spec 4.1: "repeatedly extracts the low `n` bits of `value` (via mask/shift on
an arbitrary-precision integer), producing `k` limbs.  Fails with `OutOfRange`
if `value >= 2^(n·k)`."  Values are non-negative (`Nat`), matching the
precondition that negative input is invalid. -/
def encode (n k : Nat) (value : Nat) : Except Err (List Nat) :=
  if value ≥ 2 ^ (n * k) then .error .OutOfRange
  else .ok (encodeLimbs n k value)

/-- Modelled from the spec: `decode` of the Limb Codec (`bls_utils`, not among
the sources).  Computes `Σ limb[i] · 2^(n·i)` (Horner form over the
little-endian limb list). -/
def decode (limbs : List Nat) (n : Nat) : Nat :=
  match limbs with
  | [] => 0
  | l :: rest => l + 2 ^ n * decode rest n

/-! ## Byte/Hex Codec (spec section 4.2) -/

/-- A hexadecimal digit (both cases accepted). -/
def isHexDigit (c : Char) : Bool :=
  decide (('0' ≤ c ∧ c ≤ '9') ∨ ('a' ≤ c ∧ c ≤ 'f') ∨ ('A' ≤ c ∧ c ≤ 'F'))

/-- Numeric value of a hexadecimal digit. -/
def hexDigitVal (c : Char) : Nat :=
  if c ≤ '9' then c.toNat - '0'.toNat
  else if 'a' ≤ c then c.toNat - 'a'.toNat + 10
  else c.toNat - 'A'.toNat + 10

/-- Decode consecutive pairs of hex digits into bytes, most significant
digit first within each pair. -/
def parseHexPairs : List Char → List Nat
  | c1 :: c2 :: rest => (16 * hexDigitVal c1 + hexDigitVal c2) :: parseHexPairs rest
  | _ => []

/-- Modelled from the spec: `hexToBytes` of the Byte/Hex Codec (the
`hexToIntArray` function of `bls_utils`, not among the sources).  Spec 4.2:
"accepts an even-length hex string, optionally prefixed with a 2-character
marker that must be stripped before decoding.  Fails with `MalformedHex` on
odd length or non-hex characters."  The length and digit checks apply to the
string being decoded, i.e. after the optional marker removal. -/
def hexToBytes (hex : String) (stripPfx : Bool) : Except Err (List Nat) :=
  let s := if stripPfx then hex.drop 2 else hex
  if s.length % 2 = 1 then .error .MalformedHex
  else if s.data.all isHexDigit then .ok (parseHexPairs s.data)
  else .error .MalformedHex

/-! ## JSON documents -/

/-- JSON values, as produced by `JSON.stringify`.  A `num` leaf is a native
JSON numeric literal; a `str` leaf is a JSON string. -/
inductive Json where
  | null
  | bool (b : Bool)
  | num (m : Int)
  | str (s : String)
  | arr (elems : List Json)
  | obj (fields : List (String × Json))

/-- The element list of a JSON array (empty for any other value). -/
def Json.elems : Json → List Json
  | .arr xs => xs
  | _ => []

/-- Field lookup in a JSON object (`null` when absent or not an object). -/
def Json.field (j : Json) (key : String) : Json :=
  match j with
  | .obj fields => ((fields.find? (fun f => f.1 == key)).map Prod.snd).getD .null
  | _ => .null

/-! ## Curve points (external collaborator data) -/

/-- A decompressed G1 point in affine form; coordinates are the non-negative
big integers `x.value`, `y.value` extracted by `point_to_bigint`. -/
structure AffinePoint where
  x : Nat
  y : Nat

/-- The embedding of `point_to_bigint` (source lines 23–26): affine
conversion is performed by the external curve library, so the embedding
starts from the affine coordinates and returns them as a pair. -/
def point_to_bigint (p : AffinePoint) : Nat × Nat := (p.x, p.y)

/-- A decompressed G2 point: affine coordinates over the quadratic extension
field, each coordinate a (real, imaginary) pair of big integers. -/
structure G2Point where
  x_r : Nat
  x_i : Nat
  y_r : Nat
  y_i : Nat

/-! ## Signature Encoder (spec section 4.4) -/

/-- Result of the Signature Encoder: a flattened limb sequence in `"array"`
mode, or a record keyed by coordinate name in `"object"` mode. -/
inductive SigSnark where
  | arrMode (limbs : List Nat)
  | objMode (x_r x_i y_r y_i : List Nat)

/-- The converter script fixes the limb width `n = 55` (source line 20). -/
def n : Nat := 55

/-- The converter script fixes the limb count `k = 7` (source line 21). -/
def k : Nat := 7

/-- Modelled from the spec: `sigHexAsSnarkInput` of `bls_utils` (not among
the sources).  Spec 4.4: decompress the hex-encoded compressed G2 point
(delegated to the external curve library, here the `decompressG2` parameter),
apply the Limb Codec to each of the four component integers, then flatten in
the fixed order real-x, imag-x, real-y, imag-y for `"array"` mode, return a
structured record for `"object"` mode, and fail with `InvalidMode` for any
other mode value. -/
def sigHexAsSnarkInput (decompressG2 : String → Except Err G2Point)
    (sigHex : String) (mode : String) : Except Err SigSnark := do
  let p ← decompressG2 sigHex
  let xr ← encode n k p.x_r
  let xi ← encode n k p.x_i
  let yr ← encode n k p.y_r
  let yi ← encode n k p.y_i
  if mode = "array" then
    return .arrMode (xr ++ xi ++ yr ++ yi)
  else if mode = "object" then
    return .objMode xr xi yr yi
  else
    throw .InvalidMode

/-! ## Step data (spec sections 3 and 6) -/

/-- The parsed input document `data/my_step_data.json`.  The pass-through
fields carry arbitrary JSON values. -/
structure StepData where
  pubkeys : List String
  pubkeybits : Json
  signature : String
  signing_root : String
  participation : Json
  syncCommitteePoseidon : Json

/-- The output record `myStepInput` (source lines 59–67). -/
structure StepInput where
  pubkeysX : List (List Nat)
  pubkeysY : List (List Nat)
  aggregationBits : Json
  signature : SigSnark
  signingRoot : List Nat
  participation : Json
  syncCommitteePoseidon : Json

/-! ## Step-Data Converter (source lines 35–80) -/

/-- `Array.prototype.map` with a fallible body: JavaScript exception
propagation makes the first failing element abort the whole map. -/
def mapExcept (f : α → Except Err β) : List α → Except Err (List β)
  | [] => .ok []
  | a :: as => do
      let b ← f a
      let bs ← mapExcept f as
      return b :: bs

/-- One entry of the `myStepData.pubkeys.map(...)` callback (source lines
42–49): drop the two leading characters (`substring(2)`), decompress via the
external curve library (`PointG1.fromHex`, the `fromHex` parameter), convert
to affine big integers, and limb-encode both coordinates. -/
def encodePubkey (fromHex : String → Except Err AffinePoint)
    (pubkey : String) : Except Err (List Nat × List Nat) := do
  let point ← fromHex (pubkey.drop 2)
  let bigints := point_to_bigint point
  let xs ← encode n k bigints.1
  let ys ← encode n k bigints.2
  return (xs, ys)

/-- The pure core of `convertMyStepData` (source lines 35–67): map over the
public keys, split the resulting pairs into the parallel `pubkeysX` /
`pubkeysY` arrays (the push loop at lines 54–57), encode the signature in
`"array"` mode, decode the signing root, and pass the remaining fields
through.  The parameter `b` is the numeric entry-point parameter declared
with default value `512` at line 35; file reading and writing are kept
outside this definition. -/
def convertMyStepData (fromHex : String → Except Err AffinePoint)
    (decompressG2 : String → Except Err G2Point)
    (b : Nat) (d : StepData) : Except Err StepInput := do
  let pubkeys ← mapExcept (encodePubkey fromHex) d.pubkeys
  let pubkeysX := pubkeys.map Prod.fst
  let pubkeysY := pubkeys.map Prod.snd
  let sig ← sigHexAsSnarkInput decompressG2 d.signature "array"
  let root ← hexToBytes d.signing_root true
  return { pubkeysX := pubkeysX, pubkeysY := pubkeysY,
           aggregationBits := d.pubkeybits,
           signature := sig, signingRoot := root,
           participation := d.participation,
           syncCommitteePoseidon := d.syncCommitteePoseidon }

/-! ## Serialization (source lines 16–18 and 76–79) -/

/-- The `BigInt.prototype.toJSON` override (source lines 16–18): every
`bigint` — in particular every limb — serializes as its decimal string. -/
def limbToJson (v : Nat) : Json := .str (Nat.repr v)

/-- A limb array serializes as a JSON array of decimal strings. -/
def limbArrayToJson (l : List Nat) : Json := .arr (l.map limbToJson)

/-- Serialization of the Signature Encoder output: its limbs are bigints,
hence decimal strings. -/
def sigToJson : SigSnark → Json
  | .arrMode limbs => limbArrayToJson limbs
  | .objMode xr xi yr yi =>
      .obj [("x_r", limbArrayToJson xr), ("x_i", limbArrayToJson xi),
            ("y_r", limbArrayToJson yr), ("y_i", limbArrayToJson yi)]

/-- `JSON.stringify(myStepInput)` (source line 78) as a JSON document.  The
signing-root bytes are ordinary numbers (0–255), serialized as native
numeric literals; all limb values go through the bigint override. -/
def stepInputToJson (si : StepInput) : Json :=
  .obj [("pubkeysX", .arr (si.pubkeysX.map limbArrayToJson)),
        ("pubkeysY", .arr (si.pubkeysY.map limbArrayToJson)),
        ("aggregationBits", si.aggregationBits),
        ("signature", sigToJson si.signature),
        ("signingRoot", .arr (si.signingRoot.map (fun b => .num (Int.ofNat b)))),
        ("participation", si.participation),
        ("syncCommitteePoseidon", si.syncCommitteePoseidon)]

/-- The arbitrary-precision integer leaves of the output document that stem
from limb values: the elements of the inner arrays under `pubkeysX` and
`pubkeysY`, and the elements of the array under `signature`. -/
def limbJsonValues (doc : Json) : List Json :=
  ((doc.field "pubkeysX").elems.map Json.elems).flatten ++
  ((doc.field "pubkeysY").elems.map Json.elems).flatten ++
  (doc.field "signature").elems

/-- The effectful run of `convertMyStepData`: the file system is modelled as
the content of the output path `data/my_step_input.json` (`none` when the
file does not exist).  Mirrors the source: every fallible computation (lines
42–67) happens before the single `fs.writeFileSync` (line 76), so a failing
step leaves the output path untouched; a successful run replaces it with the
serialized document. -/
def runConvertMyStepData (fromHex : String → Except Err AffinePoint)
    (decompressG2 : String → Except Err G2Point) (b : Nat) (d : StepData)
    (outFile : Option Json) : Except Err Unit × Option Json :=
  match convertMyStepData fromHex decompressG2 b d with
  | .error e => (.error e, outFile)
  | .ok si => (.ok (), some (stepInputToJson si))

/-! ## Concrete instances used by the witnesses -/

/-- A curve library stub whose decompression always yields the point
`(x = 5, y = 7)` (the end-to-end scenario of spec section 8). -/
def wFromHex : String → Except Err AffinePoint := fun _ => .ok ⟨5, 7⟩

/-- A curve library stub that always fails decompression. -/
def wFromHexBad : String → Except Err AffinePoint :=
  fun _ => .error .DecompressionError

/-- A curve library stub for G2 decompression. -/
def wDecompressG2 : String → Except Err G2Point := fun _ => .ok ⟨1, 2, 3, 4⟩

/-- A concrete input document with one public key. -/
def wData : StepData :=
  { pubkeys := ["0xAB"], pubkeybits := .arr [.bool true],
    signature := "0xSIG", signing_root := "0x12",
    participation := .num 1, syncCommitteePoseidon := .str "c" }

/-- A concrete input document with no public keys. -/
def wDataEmpty : StepData :=
  { pubkeys := [], pubkeybits := .null,
    signature := "0xSIG", signing_root := "0x12",
    participation := .null, syncCommitteePoseidon := .null }

/-- A concrete step input used to witness the serialization claim. -/
def wStepInput : StepInput :=
  { pubkeysX := [[3]], pubkeysY := [[9]], aggregationBits := .null,
    signature := .arrMode [7], signingRoot := [18],
    participation := .null, syncCommitteePoseidon := .null }

/-! ## Helper lemmas -/

/-- Decoding the raw limb extraction recovers the value modulo capacity. -/
theorem decode_encodeLimbs (n k v : Nat) :
    decode (encodeLimbs n k v) n = v % 2 ^ (n * k) := by
  induction k generalizing v with
  | zero => simp [encodeLimbs, decode, Nat.mod_one]
  | succ kk ih =>
      rw [encodeLimbs, decode, ih (v / 2 ^ n), Nat.mul_succ, Nat.add_comm (n * kk) n,
        pow_add, Nat.mod_mul]

/-- The extraction loop always yields exactly `k` limbs. -/
theorem encodeLimbs_length (n k v : Nat) : (encodeLimbs n k v).length = k := by
  induction k generalizing v with
  | zero => rfl
  | succ kk ih => simp [encodeLimbs, ih]

/-- Every limb the extraction loop yields is below `2^n`. -/
theorem encodeLimbs_lt (n k v : Nat) :
    ∀ e ∈ encodeLimbs n k v, e < 2 ^ n := by
  induction k generalizing v with
  | zero => intro e he; simp [encodeLimbs] at he
  | succ kk ih =>
      intro e he
      rw [encodeLimbs] at he
      rcases List.mem_cons.mp he with h | h
      · exact h ▸ Nat.mod_lt v (Nat.pos_pow_of_pos n (by norm_num))
      · exact ih (v / 2 ^ n) e h

/-! ## Claims -/

/-- C1: For every non-negative integer `v` with `v < 2^(n·k)`, decoding the
limb array produced by `encode(v, n, k)` with the same limb width `n` yields
exactly `v`: `decode` is a left inverse of `encode` on the representable
range. -/
theorem round_trip_decode_encode (n k v : Nat) (h : v < 2 ^ (n * k)) :
    ∃ limbs, encode n k v = .ok limbs ∧ decode limbs n = v := by
  refine ⟨encodeLimbs n k v, ?_, ?_⟩
  · simp [encode, Nat.not_le.mpr h]
  · rw [decode_encodeLimbs, Nat.mod_eq_of_lt h]

/-- Witness for C1: the round trip at `n = 3`, `k = 2`, `v = 50`. -/
theorem round_trip_decode_encode_witness :
    ∃ limbs, encode 3 2 50 = .ok limbs ∧ decode limbs 3 = 50 :=
  round_trip_decode_encode 3 2 50 (by norm_num)

/-- C2: `encode(v, n, k)` succeeds for every `v ≤ 2^(n·k) - 1`, and for every
`v ≥ 2^(n·k)` it fails with the `OutOfRange` error rather than truncating or
returning a limb array. -/
theorem encode_capacity_boundary (n k v : Nat) :
    (v < 2 ^ (n * k) → encode n k v = .ok (encodeLimbs n k v)) ∧
    (v ≥ 2 ^ (n * k) → encode n k v = .error .OutOfRange) := by
  constructor
  · intro h; simp [encode, Nat.not_le.mpr h]
  · intro h; simp [encode, h]

/-- Witness for C2: at `n = 2`, `k = 3` the capacity is `64`; `63` encodes and
`64` is rejected. -/
theorem encode_capacity_boundary_witness :
    encode 2 3 63 = .ok (encodeLimbs 2 3 63) ∧
    encode 2 3 64 = .error .OutOfRange :=
  ⟨(encode_capacity_boundary 2 3 63).1 (by norm_num),
   (encode_capacity_boundary 2 3 64).2 (by norm_num)⟩

/-- C3: every limb array `encode` produces has exactly `k` entries, each entry
`e` satisfying `0 ≤ e < 2^n` (entries are `Nat`, hence non-negative). -/
theorem encode_limbs_shape (n k v : Nat) (limbs : List Nat)
    (h : encode n k v = .ok limbs) :
    limbs.length = k ∧ ∀ e ∈ limbs, e < 2 ^ n := by
  unfold encode at h
  by_cases hv : v ≥ 2 ^ (n * k)
  · simp [hv] at h
  · simp only [hv, if_false, Except.ok.injEq] at h
    exact h ▸ ⟨encodeLimbs_length n k v, encodeLimbs_lt n k v⟩

/-- Witness for C3: `encode 3 4 100` yields four limbs, all below `8`. -/
theorem encode_limbs_shape_witness :
    (encodeLimbs 3 4 100).length = 4 ∧ ∀ e ∈ encodeLimbs 3 4 100, e < 2 ^ 3 :=
  encode_limbs_shape 3 4 100 (encodeLimbs 3 4 100) rfl

/-- Successful fallible map: the result has the length of the input. -/
theorem mapExcept_ok_length (f : α → Except Err β) (l : List α) (res : List β)
    (h : mapExcept f l = .ok res) : res.length = l.length := by
  induction l generalizing res with
  | nil =>
      simp only [mapExcept, Except.ok.injEq] at h
      simp [← h]
  | cons a as ih =>
      unfold mapExcept at h
      cases hb : f a with
      | error e => simp [hb, Bind.bind, Except.bind] at h
      | ok b =>
          simp only [hb, Bind.bind, Except.bind] at h
          cases hbs : mapExcept f as with
          | error e => simp [hbs, Bind.bind, Except.bind] at h
          | ok bs =>
              simp only [hbs, pure, Except.pure, Except.ok.injEq] at h
              simp [← h, ih bs hbs]

/-- Successful fallible map: each output position is the successful image of
the input at that position. -/
theorem mapExcept_ok_getElem (f : α → Except Err β) (l : List α)
    (res : List β) (h : mapExcept f l = .ok res) (i : Nat) (a : α)
    (ha : l[i]? = some a) : ∃ b, f a = .ok b ∧ res[i]? = some b := by
  induction l generalizing res i with
  | nil => simp at ha
  | cons x xs ih =>
      unfold mapExcept at h
      cases hb : f x with
      | error e => simp [hb, Bind.bind, Except.bind] at h
      | ok b =>
          simp only [hb, Bind.bind, Except.bind] at h
          cases hbs : mapExcept f xs with
          | error e => simp [hbs, Bind.bind, Except.bind] at h
          | ok bs =>
              simp only [hbs, pure, Except.pure, Except.ok.injEq] at h
              subst h
              cases i with
              | zero =>
                  simp only [List.getElem?_cons_zero, Option.some.injEq] at ha
                  exact ⟨b, ha ▸ hb, by simp⟩
              | succ j =>
                  simp only [List.getElem?_cons_succ] at ha ⊢
                  exact ih bs hbs j ha

/-- Characterization of a successful converter run in terms of its three
fallible stages. -/
theorem convertMyStepData_ok_iff (fromHex : String → Except Err AffinePoint)
    (dg2 : String → Except Err G2Point) (b : Nat) (d : StepData)
    (si : StepInput) :
    convertMyStepData fromHex dg2 b d = .ok si ↔
    ∃ pairs sig root,
      mapExcept (encodePubkey fromHex) d.pubkeys = .ok pairs ∧
      sigHexAsSnarkInput dg2 d.signature "array" = .ok sig ∧
      hexToBytes d.signing_root true = .ok root ∧
      si = ⟨pairs.map Prod.fst, pairs.map Prod.snd, d.pubkeybits, sig, root,
            d.participation, d.syncCommitteePoseidon⟩ := by
  constructor
  · intro h
    unfold convertMyStepData at h
    cases hm : mapExcept (encodePubkey fromHex) d.pubkeys with
    | error e => simp [hm, Bind.bind, Except.bind] at h
    | ok pairs =>
        simp only [hm, Bind.bind, Except.bind] at h
        cases hs : sigHexAsSnarkInput dg2 d.signature "array" with
        | error e => simp [hs, Bind.bind, Except.bind] at h
        | ok sig =>
            simp only [hs] at h
            cases hr : hexToBytes d.signing_root true with
            | error e => simp [hr, Bind.bind, Except.bind] at h
            | ok root =>
                simp only [hr, pure, Except.pure, Except.ok.injEq] at h
                exact ⟨pairs, sig, root, rfl, rfl, rfl, h.symm⟩
  · rintro ⟨pairs, sig, root, hm, hs, hr, rfl⟩
    unfold convertMyStepData
    simp [hm, hs, hr, Bind.bind, Except.bind, pure, Except.pure]

/-- Characterization of a successful per-pubkey encoding step. -/
theorem encodePubkey_ok_iff (fromHex : String → Except Err AffinePoint)
    (pk : String) (xs ys : List Nat) :
    encodePubkey fromHex pk = .ok (xs, ys) ↔
    ∃ p, fromHex (pk.drop 2) = .ok p ∧
      encode n k p.x = .ok xs ∧ encode n k p.y = .ok ys := by
  constructor
  · intro h
    unfold encodePubkey at h
    cases hp : fromHex (pk.drop 2) with
    | error e => simp [hp, Bind.bind, Except.bind] at h
    | ok p =>
        simp only [hp, Bind.bind, Except.bind] at h
        cases hx : encode n k (point_to_bigint p).1 with
        | error e => simp [hx, Bind.bind, Except.bind] at h
        | ok lx =>
            simp only [hx] at h
            cases hy : encode n k (point_to_bigint p).2 with
            | error e => simp [hy, Bind.bind, Except.bind] at h
            | ok ly =>
                simp only [hy, pure, Except.pure, Except.ok.injEq,
                  Prod.mk.injEq] at h
                obtain ⟨h1, h2⟩ := h
                subst h1; subst h2
                exact ⟨p, rfl, hx, hy⟩
  · rintro ⟨p, hp, hx, hy⟩
    unfold encodePubkey
    simp [hp, Bind.bind, Except.bind, point_to_bigint, hx, hy, pure, Except.pure]

/-- C4: for every input list of public-key hex strings, a successful converter
run yields parallel arrays `pubkeysX` and `pubkeysY` such that at every index
`i` they hold the limb encodings of the affine x and y coordinates of the
point decompressed from input public key `i` (after the 2-character marker
removal of `substring(2)`); input order is preserved. -/
theorem convert_order_preserved (fromHex : String → Except Err AffinePoint)
    (dg2 : String → Except Err G2Point) (b : Nat) (d : StepData)
    (si : StepInput) (h : convertMyStepData fromHex dg2 b d = .ok si)
    (i : Nat) (pk : String) (hpk : d.pubkeys[i]? = some pk) :
    ∃ p xs ys, fromHex (pk.drop 2) = .ok p ∧
      encode n k p.x = .ok xs ∧ encode n k p.y = .ok ys ∧
      si.pubkeysX[i]? = some xs ∧ si.pubkeysY[i]? = some ys := by
  rcases (convertMyStepData_ok_iff fromHex dg2 b d si).1 h with
    ⟨pairs, sig, root, hm, hs, hr, rfl⟩
  obtain ⟨pr, hpr, hres⟩ := mapExcept_ok_getElem _ _ _ hm i pk hpk
  obtain ⟨xs, ys⟩ := pr
  rcases (encodePubkey_ok_iff fromHex pk xs ys).1 hpr with ⟨p, hp, hx, hy⟩
  refine ⟨p, xs, ys, hp, hx, hy, ?_, ?_⟩
  · simp [List.getElem?_map, hres]
  · simp [List.getElem?_map, hres]

/-- Witness for C4: a one-key run with the stub point `(5, 7)` of the spec
end-to-end scenario. -/
theorem convert_order_preserved_witness :
    ∃ si, convertMyStepData wFromHex wDecompressG2 512 wData = .ok si ∧
      ∃ p xs ys, wFromHex ("0xAB".drop 2) = .ok p ∧
        encode n k p.x = .ok xs ∧ encode n k p.y = .ok ys ∧
        si.pubkeysX[0]? = some xs ∧ si.pubkeysY[0]? = some ys := by
  refine ⟨_, rfl, ?_⟩
  exact convert_order_preserved wFromHex wDecompressG2 512 wData _ rfl 0 "0xAB" rfl

/-- C5: if any step of the conversion fails, the run writes nothing: the
single write happens only after the whole `StepInput` has been computed, so
on error the output location is unchanged. -/
theorem no_output_on_failure (fromHex : String → Except Err AffinePoint)
    (dg2 : String → Except Err G2Point) (b : Nat) (d : StepData)
    (outFile : Option Json) (e : Err)
    (h : convertMyStepData fromHex dg2 b d = .error e) :
    runConvertMyStepData fromHex dg2 b d outFile = (.error e, outFile) := by
  simp [runConvertMyStepData, h]

/-- Witness for C5: a failing decompression leaves the absent output file
absent. -/
theorem no_output_on_failure_witness :
    runConvertMyStepData wFromHexBad wDecompressG2 512 wData none =
      (.error .DecompressionError, none) :=
  no_output_on_failure wFromHexBad wDecompressG2 512 wData none
    .DecompressionError rfl

/-- C7: `hexToBytes "0x1234"` with marker-stripping enabled yields
`[18, 52]`, and any string of odd length or containing a non-hex character
is rejected with `MalformedHex` by the decoder. -/
theorem hexToBytes_spec :
    hexToBytes "0x1234" true = .ok [18, 52] ∧
    ∀ s : String, (s.length % 2 = 1 ∨ ∃ c ∈ s.data, isHexDigit c = false) →
      hexToBytes s false = .error .MalformedHex := by
  constructor
  · rfl
  · intro s hs
    unfold hexToBytes
    by_cases hodd : s.length % 2 = 1
    · simp [hodd]
    · rcases hs with h | ⟨c, hc, hcx⟩
      · exact absurd h hodd
      · have hall : s.data.all isHexDigit = false :=
          List.all_eq_false.mpr ⟨c, hc, by simp [hcx]⟩
        simp [hodd, hall]

/-- Witness for C7: the decoder rejects the odd-length string `"abc"`. -/
theorem hexToBytes_spec_witness :
    hexToBytes "0x1234" true = .ok [18, 52] ∧
    hexToBytes "abc" false = .error .MalformedHex :=
  ⟨hexToBytes_spec.1, hexToBytes_spec.2 "abc" (Or.inl (by decide))⟩

/-- C8: the output fields `aggregationBits`, `participation` and
`syncCommitteePoseidon` are exact copies of the input fields `pubkeybits`,
`participation` and `syncCommitteePoseidon`; no transformation is applied. -/
theorem passthrough_unchanged (fromHex : String → Except Err AffinePoint)
    (dg2 : String → Except Err G2Point) (b : Nat) (d : StepData)
    (si : StepInput) (h : convertMyStepData fromHex dg2 b d = .ok si) :
    si.aggregationBits = d.pubkeybits ∧ si.participation = d.participation ∧
    si.syncCommitteePoseidon = d.syncCommitteePoseidon := by
  rcases (convertMyStepData_ok_iff fromHex dg2 b d si).1 h with
    ⟨pairs, sig, root, hm, hs, hr, rfl⟩
  exact ⟨rfl, rfl, rfl⟩

/-- Witness for C8: the pass-through fields of a concrete successful run. -/
theorem passthrough_unchanged_witness :
    ∃ si, convertMyStepData wFromHex wDecompressG2 512 wData = .ok si ∧
      si.aggregationBits = wData.pubkeybits ∧
      si.participation = wData.participation ∧
      si.syncCommitteePoseidon = wData.syncCommitteePoseidon := by
  refine ⟨_, rfl, ?_⟩
  exact passthrough_unchanged wFromHex wDecompressG2 512 wData _ rfl

/-- C9: the numeric entry-point parameter (declared with default value `512`
in the source) has no effect: any two values of it give identical conversion
results and identical effectful runs on the same input. -/
theorem entry_param_no_effect (fromHex : String → Except Err AffinePoint)
    (dg2 : String → Except Err G2Point) (b1 b2 : Nat) (d : StepData) :
    convertMyStepData fromHex dg2 b1 d = convertMyStepData fromHex dg2 b2 d ∧
    ∀ outFile, runConvertMyStepData fromHex dg2 b1 d outFile =
      runConvertMyStepData fromHex dg2 b2 d outFile :=
  ⟨rfl, fun _ => rfl⟩

/-- C10: on every successful run, `pubkeysX` and `pubkeysY` have equal
length, that length is the number of input public keys, and an empty
`pubkeys` input yields two empty arrays with the run succeeding (the
remaining stages, which concern other fields, being successful). -/
theorem pubkey_arrays_parallel (fromHex : String → Except Err AffinePoint)
    (dg2 : String → Except Err G2Point) (b : Nat) (d : StepData) :
    (∀ si, convertMyStepData fromHex dg2 b d = .ok si →
      si.pubkeysX.length = si.pubkeysY.length ∧
      si.pubkeysX.length = d.pubkeys.length) ∧
    (d.pubkeys = [] →
      ∀ sig root, sigHexAsSnarkInput dg2 d.signature "array" = .ok sig →
        hexToBytes d.signing_root true = .ok root →
        ∃ si, convertMyStepData fromHex dg2 b d = .ok si ∧
          si.pubkeysX = [] ∧ si.pubkeysY = []) := by
  constructor
  · intro si h
    rcases (convertMyStepData_ok_iff fromHex dg2 b d si).1 h with
      ⟨pairs, sig, root, hm, hs, hr, rfl⟩
    have hlen := mapExcept_ok_length _ _ _ hm
    constructor
    · simp
    · simp [hlen]
  · intro hnil sig root hsig hroot
    refine ⟨_, (convertMyStepData_ok_iff fromHex dg2 b d _).2
      ⟨[], sig, root, ?_, hsig, hroot, rfl⟩, rfl, rfl⟩
    rw [hnil]
    rfl

/-- Witness for C10: the length invariant on a one-key run and the empty-input
run on a concrete input document. -/
theorem pubkey_arrays_parallel_witness :
    (∃ si, convertMyStepData wFromHex wDecompressG2 512 wData = .ok si ∧
      si.pubkeysX.length = si.pubkeysY.length ∧
      si.pubkeysX.length = wData.pubkeys.length) ∧
    (∃ si, convertMyStepData wFromHex wDecompressG2 512 wDataEmpty = .ok si ∧
      si.pubkeysX = [] ∧ si.pubkeysY = []) := by
  constructor
  · refine ⟨_, rfl, ?_⟩
    exact (pubkey_arrays_parallel wFromHex wDecompressG2 512 wData).1 _ rfl
  · exact (pubkey_arrays_parallel wFromHex wDecompressG2 512 wDataEmpty).2
      rfl _ _ rfl rfl

/-- C6: in the serialized `StepInput` document, every arbitrary-precision
integer — every limb value under `pubkeysX`, `pubkeysY` and `signature` — is
emitted as its decimal string representation, never as a native JSON numeric
literal. -/
theorem limb_values_are_decimal_strings (si : StepInput) :
    ∀ j ∈ limbJsonValues (stepInputToJson si),
      ∃ v : Nat, j = Json.str (Nat.repr v) := by
  intro j hj
  have hx : (stepInputToJson si).field "pubkeysX" =
      Json.arr (si.pubkeysX.map limbArrayToJson) := rfl
  have hy : (stepInputToJson si).field "pubkeysY" =
      Json.arr (si.pubkeysY.map limbArrayToJson) := rfl
  have hsg : (stepInputToJson si).field "signature" = sigToJson si.signature := rfl
  unfold limbJsonValues at hj
  rw [hx, hy, hsg] at hj
  simp only [Json.elems, List.mem_append] at hj
  rcases hj with (hj | hj) | hj
  · rw [List.map_map] at hj
    obtain ⟨l, hl, hjl⟩ := List.mem_flatten.1 hj
    obtain ⟨l0, hl0, rfl⟩ := List.mem_map.1 hl
    simp only [Function.comp, limbArrayToJson, Json.elems] at hjl
    obtain ⟨v, hv, rfl⟩ := List.mem_map.1 hjl
    exact ⟨v, rfl⟩
  · rw [List.map_map] at hj
    obtain ⟨l, hl, hjl⟩ := List.mem_flatten.1 hj
    obtain ⟨l0, hl0, rfl⟩ := List.mem_map.1 hl
    simp only [Function.comp, limbArrayToJson, Json.elems] at hjl
    obtain ⟨v, hv, rfl⟩ := List.mem_map.1 hjl
    exact ⟨v, rfl⟩
  · cases hcase : si.signature with
    | arrMode limbs =>
        rw [hcase] at hj
        simp only [sigToJson, limbArrayToJson, Json.elems] at hj
        obtain ⟨v, hv, rfl⟩ := List.mem_map.1 hj
        exact ⟨v, rfl⟩
    | objMode xr xi yr yi =>
        rw [hcase] at hj
        simp [sigToJson, Json.elems] at hj

/-- Witness for C6: the limb `3` of a concrete document appears as the JSON
string of a decimal numeral. -/
theorem limb_values_are_decimal_strings_witness :
    ∃ v : Nat, Json.str "3" = Json.str (Nat.repr v) :=
  limb_values_are_decimal_strings wStepInput (Json.str "3") (List.Mem.head _)
